import Mathlib

/-!
Shallow embedding of arena.h (seajee/arena.h, v1.0.1), a single-header
region-based memory allocator, together with proofs about its operations.

Modelling conventions:

* A C Arena_Region (arena.h lines 111-116) carries a used-bytes cursor
  (field name in the source: count), a capacity fixed at creation, and a
  trailing byte buffer.  The next pointer of the C struct is represented by
  the position of the region in a Lean list: the Arena chain from head is a
  List Region, index 0 being head.  Setting the next pointer of node t to a
  fresh node is List.take (t+1) followed by an append of the new node.
* An Arena (lines 118-122) is the chain, the tail cursor as an index into
  the chain, and the configured region_capacity.  The C NULL head/tail pair
  of an empty arena is the empty list with tail index 0.
* size_t values are modelled as Nat.  The only subtraction in the source,
  capacity - count (lines 172, 174, 179), never underflows on states
  satisfying the invariant count <= capacity (proved below for all
  reachable states), so Nat subtraction agrees with the C computation
  there; no addition in the source can overflow on such states either.
* ARENA_REALLOC is pluggable and can fail; one arena_alloc call performs at
  most one such acquisition, so arena_alloc takes the outcome of that call
  as a parameter mem : Option (List Nat) (none = the underlying allocator
  failed and returned NULL; some fresh = it succeeded and handed back a
  buffer whose uninitialized contents are fresh).  ARENA_ASSERT is modelled
  as a no-op hook (the configurable non-aborting choice); note that the
  assertion at line 182 checks a->head and therefore never fires on the
  path it guards anyway.
* A returned pointer is modelled as the pair (index of the region in the
  chain, byte offset into that region's data buffer); NULL is none.
* arena_free (lines 197-213) releases each region of the chain with the C
  standard library function free (line 206 is literally free(cur), not the
  configurable ARENA_FREE); the model returns, next to the new arena
  state, the trace of deallocation calls made, each tagged with which
  deallocation function the source invokes.
-/

/-- One region of the chain: arena.h lines 111-116.  The source field names
are count (bytes used), capacity and data; next is the list structure. -/
structure Region where
  count : Nat
  capacity : Nat
  data : List Nat
deriving DecidableEq, Inhabited, Repr

/-- The arena: arena.h lines 118-122.  regions is the chain reachable from
head (index 0 = head); tail is the index of the tail region. -/
structure Arena where
  regions : List Region
  tail : Nat
  region_capacity : Nat
deriving DecidableEq, Inhabited, Repr

/-- The library default region capacity: arena.h line 87, 8*1024 bytes. -/
def ARENA_REGION_CAPACITY : Nat := 8 * 1024

/-- A pointer returned by arena_alloc: none is NULL, some (i, off) is the
address off bytes into the data buffer of region number i of the chain. -/
abbrev Ptr := Option (Nat × Nat)

/-- Which deallocation function arena_free invokes for a region. -/
inductive FreeFn where
  /-- the C standard library function free. -/
  | libcFree
  /-- the configurable ARENA_FREE hook (arena.h lines 100-103). -/
  | arenaFreeHook
deriving DecidableEq, Repr

/-- The region at index i of a chain (dereferencing a region pointer). -/
def regionAt (rs : List Region) (i : Nat) : Region :=
  rs.getD i default

/-- Remaining space of region i: capacity - count as computed at arena.h
lines 172, 174 and 179 (size_t subtraction; it agrees with Nat subtraction
whenever count <= capacity, the invariant proved for reachable states). -/
def regionFree (rs : List Region) (i : Nat) : Nat :=
  (regionAt rs i).capacity - (regionAt rs i).count

/-- The effective default capacity for new regions: arena.h lines 154-155,
ARENA_REGION_CAPACITY when the configured value is zero. -/
def effCap (a : Arena) : Nat :=
  if a.region_capacity = 0 then ARENA_REGION_CAPACITY else a.region_capacity

/-- Size of a freshly created region: arena.h lines 159 and 180,
bytes > region_capacity ? bytes : region_capacity. -/
def newRegionSize (a : Arena) (bytes : Nat) : Nat :=
  if bytes > effCap a then bytes else effCap a

/-- The tail-advancing search loop of arena.h lines 174-176, with explicit
fuel: while (a->tail->next != NULL && bytes > capacity - count) advance.
next != NULL of node t is t + 1 < rs.length. -/
def walkTailAux (rs : List Region) (bytes : Nat) : Nat → Nat → Nat
  | 0, t => t
  | fuel + 1, t =>
      if t + 1 < rs.length ∧ bytes > regionFree rs t then
        walkTailAux rs bytes fuel (t + 1)
      else t

/-- The search loop started with enough fuel for the whole chain (the loop
advances at most rs.length - 1 times, so fuel rs.length is exact). -/
def walkTail (rs : List Region) (bytes : Nat) (t : Nat) : Nat :=
  walkTailAux rs bytes rs.length t

/-- The common fall-through of arena.h lines 193-194:
a->tail->count += bytes; return a->tail->data + a->tail->count;  The
pointer returned is the offset count AFTER the increment. -/
def bumpAt (a : Arena) (t bytes : Nat) : Ptr × Arena :=
  (some (t, (regionAt a.regions t).count + bytes),
   ⟨a.regions.set t
      ⟨(regionAt a.regions t).count + bytes,
       (regionAt a.regions t).capacity,
       (regionAt a.regions t).data⟩,
    t, a.region_capacity⟩)

/-- arena_alloc, arena.h lines 148-195.  mem is the outcome of the (at most
one) ARENA_REALLOC call this invocation performs; the NULL-arena guard at
lines 150-152 is outside a by-value model. -/
def arena_alloc (a : Arena) (bytes : Nat) (mem : Option (List Nat)) :
    Ptr × Arena :=
  if a.regions = [] then
    -- Empty arena: lines 158-168
    match mem with
    | none => (none, a)
    | some fresh =>
        (some (0, 0),
         ⟨[⟨bytes, newRegionSize a bytes, fresh⟩], 0, a.region_capacity⟩)
  else if bytes > regionFree a.regions a.tail then
    -- Not enough capacity at tail: lines 172-191
    if bytes > regionFree a.regions (walkTail a.regions bytes a.tail) then
      -- Chain exhausted, create a new region: lines 179-190
      match mem with
      | none =>
          (none, ⟨a.regions, walkTail a.regions bytes a.tail,
                  a.region_capacity⟩)
      | some fresh =>
          (some (walkTail a.regions bytes a.tail + 1, 0),
           ⟨a.regions.take (walkTail a.regions bytes a.tail + 1) ++
              [⟨bytes, newRegionSize a bytes, fresh⟩],
            walkTail a.regions bytes a.tail + 1, a.region_capacity⟩)
    else
      -- The walk found a suitable region; fall through to the bump
      bumpAt a (walkTail a.regions bytes a.tail) bytes
  else
    bumpAt a a.tail bytes

/-- arena_create, arena.h lines 141-146: zero arena with the given
region_capacity.  A zero-initialized Arena is arena_create 0. -/
def arena_create (region_capacity : Nat) : Arena :=
  ⟨[], 0, region_capacity⟩

/-- arena_free, arena.h lines 197-213: walks the chain calling free(cur)
on each region (line 206 calls libc free directly, not ARENA_FREE), then
clears head and tail; region_capacity is retained (line 212 is commented
out in the source).  The second component is the trace of deallocation
calls, in chain order, tagged with the function the source invokes. -/
def arena_free (a : Arena) : Arena × List (FreeFn × Region) :=
  (⟨[], 0, a.region_capacity⟩,
   a.regions.map (fun r => (FreeFn.libcFree, r)))

/-- arena_reset, arena.h lines 215-226: sets count = 0 for every region of
the chain and moves tail back to head.  No deallocation call is made. -/
def arena_reset (a : Arena) : Arena :=
  ⟨a.regions.map (fun r => ⟨0, r.capacity, r.data⟩), 0, a.region_capacity⟩

/-- The arena states reachable by the operations of the library, starting
from arena_create (which also covers the zero-initialized Arena). -/
inductive Reachable : Arena → Prop where
  | create (c : Nat) : Reachable (arena_create c)
  | alloc {a : Arena} (bytes : Nat) (mem : Option (List Nat)) :
      Reachable a → Reachable (arena_alloc a bytes mem).2
  | reset {a : Arena} : Reachable a → Reachable (arena_reset a)
  | free {a : Arena} : Reachable a → Reachable (arena_free a).1

/-- Well-formedness: the tail index points into the chain (or the arena is
the canonical empty state), and every region satisfies count <= capacity. -/
def ArenaWF (a : Arena) : Prop :=
  (a.tail < a.regions.length ∨ (a.regions = [] ∧ a.tail = 0)) ∧
  ∀ r ∈ a.regions, r.count ≤ r.capacity

-- Sanity checks of the model on the scenario of the specification
-- (default capacity 400): four allocations of 100 fill one region.
example :
    (arena_alloc (arena_create 400) 100 (some [])).2 =
      ⟨[⟨100, 400, []⟩], 0, 400⟩ := by decide

example :
    (arena_alloc ⟨[⟨100, 400, []⟩], 0, 400⟩ 100 none).2 =
      ⟨[⟨200, 400, []⟩], 0, 400⟩ := by decide

example :
    (arena_alloc ⟨[⟨400, 400, []⟩], 0, 400⟩ 8000 (some [])).2 =
      ⟨[⟨400, 400, []⟩, ⟨8000, 8000, []⟩], 1, 400⟩ := by decide

example :
    arena_reset ⟨[⟨400, 400, []⟩, ⟨8000, 8000, []⟩], 1, 400⟩ =
      ⟨[⟨0, 400, []⟩, ⟨0, 8000, []⟩], 0, 400⟩ := by decide

/-! ## List helper lemmas -/

theorem getD_set_of_ne {α : Type} (l : List α) (i j : Nat) (x d : α)
    (h : i ≠ j) : (l.set i x).getD j d = l.getD j d := by
  induction l generalizing i j with
  | nil => simp [List.set]
  | cons hd tl ih =>
      cases i with
      | zero =>
          cases j with
          | zero => exact absurd rfl h
          | succ j => simp [List.set]
      | succ i =>
          cases j with
          | zero => simp [List.set]
          | succ j => simpa [List.set] using ih i j (by omega)

theorem getD_set_self {α : Type} (l : List α) (i : Nat) (x d : α)
    (h : i < l.length) : (l.set i x).getD i d = x := by
  induction l generalizing i with
  | nil => simp at h
  | cons hd tl ih =>
      cases i with
      | zero => simp [List.set]
      | succ i => simpa [List.set] using ih i (by simpa using h)

theorem getD_append_left {α : Type} (l l2 : List α) (i : Nat) (d : α)
    (h : i < l.length) : (l ++ l2).getD i d = l.getD i d := by
  induction l generalizing i with
  | nil => simp at h
  | cons hd tl ih =>
      cases i with
      | zero => simp
      | succ i => simpa using ih i (by simpa using h)

theorem getD_map_of_lt (l : List Region) (f : Region → Region) (i : Nat)
    (d : Region) (h : i < l.length) :
    (l.map f).getD i d = f (l.getD i d) := by
  induction l generalizing i with
  | nil => simp at h
  | cons hd tl ih =>
      cases i with
      | zero => simp
      | succ i => simpa using ih i (by simpa using h)

theorem getD_mem_of_lt {α : Type} (l : List α) (i : Nat) (d : α)
    (h : i < l.length) : l.getD i d ∈ l := by
  induction l generalizing i with
  | nil => simp at h
  | cons hd tl ih =>
      cases i with
      | zero => simp
      | succ i => exact List.mem_cons_of_mem hd (ih i (by simpa using h))

/-! ## Properties of the tail-advancing search loop -/

theorem walkTailAux_ge (rs : List Region) (bytes : Nat) :
    ∀ fuel t, t ≤ walkTailAux rs bytes fuel t := by
  intro fuel
  induction fuel with
  | zero => intro t; simp [walkTailAux]
  | succ fuel ih =>
      intro t
      by_cases h : t + 1 < rs.length ∧ bytes > regionFree rs t
      · calc t ≤ t + 1 := by omega
          _ ≤ walkTailAux rs bytes fuel (t + 1) := ih (t + 1)
          _ = walkTailAux rs bytes (fuel + 1) t := by
                simp [walkTailAux, h]
      · simp [walkTailAux, h]

/-- Full characterization of the loop result when started in bounds with
enough fuel: it never moves backwards, stays in bounds, stops either at a
region with enough space or at the last region of the chain, and every
region it skipped lacked space. -/
theorem walkTailAux_spec (rs : List Region) (bytes : Nat) :
    ∀ fuel t, t < rs.length → rs.length ≤ fuel + t + 1 →
      t ≤ walkTailAux rs bytes fuel t ∧
      walkTailAux rs bytes fuel t < rs.length ∧
      (bytes ≤ regionFree rs (walkTailAux rs bytes fuel t) ∨
        walkTailAux rs bytes fuel t = rs.length - 1) ∧
      ∀ j, t ≤ j → j < walkTailAux rs bytes fuel t →
        bytes > regionFree rs j := by
  intro fuel
  induction fuel with
  | zero =>
      intro t ht hfuel
      refine ⟨Nat.le_refl t, ?_, ?_, ?_⟩
      · simpa [walkTailAux] using ht
      · right; simp [walkTailAux]; omega
      · intro j h1 h2; simp [walkTailAux] at h2; omega
  | succ fuel ih =>
      intro t ht hfuel
      by_cases h : t + 1 < rs.length ∧ bytes > regionFree rs t
      · have heq : walkTailAux rs bytes (fuel + 1) t
            = walkTailAux rs bytes fuel (t + 1) := by
          simp [walkTailAux, h]
        obtain ⟨ih1, ih2, ih3, ih4⟩ := ih (t + 1) h.1 (by omega)
        refine ⟨?_, ?_, ?_, ?_⟩
        · rw [heq]; omega
        · rw [heq]; exact ih2
        · rw [heq]; exact ih3
        · intro j h1 h2
          rw [heq] at h2
          rcases Nat.eq_or_lt_of_le h1 with rfl | h1
          · exact h.2
          · exact ih4 j h1 h2
      · have heq : walkTailAux rs bytes (fuel + 1) t = t := by
          simp [walkTailAux, h]
        refine ⟨by omega, by omega, ?_, ?_⟩
        · rw [heq]
          rcases Nat.lt_or_ge bytes (regionFree rs t + 1) with hb | hb
          · left; omega
          · right
            rcases Classical.em (t + 1 < rs.length) with h1 | h1
            · exact absurd ⟨h1, by omega⟩ h
            · omega
        · intro j h1 h2; rw [heq] at h2; omega

theorem walkTail_ge (rs : List Region) (bytes t : Nat) :
    t ≤ walkTail rs bytes t :=
  walkTailAux_ge rs bytes rs.length t

theorem walkTail_spec (rs : List Region) (bytes t : Nat)
    (ht : t < rs.length) :
    t ≤ walkTail rs bytes t ∧
    walkTail rs bytes t < rs.length ∧
    (bytes ≤ regionFree rs (walkTail rs bytes t) ∨
      walkTail rs bytes t = rs.length - 1) ∧
    ∀ j, t ≤ j → j < walkTail rs bytes t → bytes > regionFree rs j :=
  walkTailAux_spec rs bytes rs.length t ht (by omega)

/-! ## Path lemmas for arena_alloc -/

theorem arena_alloc_empty_none (a : Arena) (bytes : Nat)
    (h : a.regions = []) : arena_alloc a bytes none = (none, a) := by
  simp [arena_alloc, h]

theorem arena_alloc_empty_some (a : Arena) (bytes : Nat) (fresh : List Nat)
    (h : a.regions = []) :
    arena_alloc a bytes (some fresh) =
      (some (0, 0),
       ⟨[⟨bytes, newRegionSize a bytes, fresh⟩], 0, a.region_capacity⟩) := by
  simp [arena_alloc, h]

theorem arena_alloc_bump_tail (a : Arena) (bytes : Nat)
    (mem : Option (List Nat)) (h : a.regions ≠ [])
    (hfree : bytes ≤ regionFree a.regions a.tail) :
    arena_alloc a bytes mem = bumpAt a a.tail bytes := by
  simp [arena_alloc, h, Nat.not_lt.2 hfree]

theorem arena_alloc_bump_walk (a : Arena) (bytes : Nat)
    (mem : Option (List Nat)) (h : a.regions ≠ [])
    (h2 : bytes > regionFree a.regions a.tail)
    (h3 : bytes ≤ regionFree a.regions (walkTail a.regions bytes a.tail)) :
    arena_alloc a bytes mem =
      bumpAt a (walkTail a.regions bytes a.tail) bytes := by
  simp [arena_alloc, h, h2, Nat.not_lt.2 h3]

theorem arena_alloc_grow_none (a : Arena) (bytes : Nat)
    (h : a.regions ≠ [])
    (h2 : bytes > regionFree a.regions a.tail)
    (h3 : bytes > regionFree a.regions (walkTail a.regions bytes a.tail)) :
    arena_alloc a bytes none =
      (none, ⟨a.regions, walkTail a.regions bytes a.tail,
              a.region_capacity⟩) := by
  simp [arena_alloc, h, h2, h3]

theorem arena_alloc_grow_some (a : Arena) (bytes : Nat) (fresh : List Nat)
    (h : a.regions ≠ [])
    (h2 : bytes > regionFree a.regions a.tail)
    (h3 : bytes > regionFree a.regions (walkTail a.regions bytes a.tail)) :
    arena_alloc a bytes (some fresh) =
      (some (walkTail a.regions bytes a.tail + 1, 0),
       ⟨a.regions.take (walkTail a.regions bytes a.tail + 1) ++
          [⟨bytes, newRegionSize a bytes, fresh⟩],
        walkTail a.regions bytes a.tail + 1, a.region_capacity⟩) := by
  simp [arena_alloc, h, h2, h3]

theorem newRegionSize_eq_max (a : Arena) (bytes : Nat) :
    newRegionSize a bytes = Nat.max bytes (effCap a) := by
  rcases Nat.lt_or_ge (effCap a) bytes with h | h
  · simp [newRegionSize, h, Nat.max_eq_left (Nat.le_of_lt h)]
  · simp [newRegionSize, Nat.not_lt.2 h, Nat.max_eq_right h]

theorem bytes_le_newRegionSize (a : Arena) (bytes : Nat) :
    bytes ≤ newRegionSize a bytes := by
  rw [newRegionSize_eq_max]; exact Nat.le_max_left bytes (effCap a)

/-- When a new region is created after the walk stopped at a region without
space, the walk stopped at the last region of the chain, so the take keeps
the whole chain and the new region is appended at its end. -/
theorem grow_take_eq (a : Arena) (bytes : Nat)
    (ht : a.tail < a.regions.length)
    (h3 : bytes > regionFree a.regions (walkTail a.regions bytes a.tail)) :
    a.regions.take (walkTail a.regions bytes a.tail + 1) = a.regions ∧
    walkTail a.regions bytes a.tail + 1 = a.regions.length := by
  obtain ⟨h1, h2, hstop, _⟩ := walkTail_spec a.regions bytes a.tail ht
  have hlast : walkTail a.regions bytes a.tail = a.regions.length - 1 := by
    rcases hstop with hsp | hl
    · omega
    · exact hl
  have hsucc : walkTail a.regions bytes a.tail + 1 = a.regions.length := by
    omega
  exact ⟨by rw [hsucc]; exact List.take_length a.regions, hsucc⟩

/-! ## Well-formedness preservation -/

theorem wf_create (c : Nat) : ArenaWF (arena_create c) := by
  constructor
  · right; exact ⟨rfl, rfl⟩
  · intro r hr; simp [arena_create] at hr

theorem wf_reset (a : Arena) : ArenaWF (arena_reset a) := by
  constructor
  · cases h : a.regions with
    | nil => right; simp [arena_reset, h]
    | cons hd tl => left; simp [arena_reset, h]
  · intro r hr
    simp [arena_reset] at hr
    obtain ⟨s, _, rfl⟩ := hr
    simp

theorem wf_free (a : Arena) : ArenaWF (arena_free a).1 := by
  constructor
  · right; exact ⟨rfl, rfl⟩
  · intro r hr; simp [arena_free] at hr

theorem regionAt_count_le (a : Arena) (t : Nat)
    (hwf : ArenaWF a) (ht : t < a.regions.length) :
    (regionAt a.regions t).count ≤ (regionAt a.regions t).capacity :=
  hwf.2 (regionAt a.regions t) (getD_mem_of_lt a.regions t default ht)

theorem wf_bumpAt (a : Arena) (t bytes : Nat) (hwf : ArenaWF a)
    (ht : t < a.regions.length)
    (hfree : bytes ≤ regionFree a.regions t) :
    ArenaWF (bumpAt a t bytes).2 := by
  have hcc := regionAt_count_le a t hwf ht
  constructor
  · left; simpa [bumpAt] using ht
  · intro r hr
    simp only [bumpAt] at hr
    rcases List.mem_or_eq_of_mem_set hr with h | rfl
    · exact hwf.2 r h
    · simp only [regionFree] at hfree
      simp; omega

theorem wf_alloc (a : Arena) (bytes : Nat) (mem : Option (List Nat))
    (hwf : ArenaWF a) : ArenaWF (arena_alloc a bytes mem).2 := by
  by_cases hne : a.regions = []
  · cases mem with
    | none => rw [arena_alloc_empty_none a bytes hne]; exact hwf
    | some fresh =>
        rw [arena_alloc_empty_some a bytes fresh hne]
        constructor
        · left; simp
        · intro r hr
          simp at hr
          subst hr
          simpa using bytes_le_newRegionSize a bytes
  · have ht : a.tail < a.regions.length := by
      rcases hwf.1 with h | ⟨h, _⟩
      · exact h
      · exact absurd h hne
    by_cases h2 : bytes > regionFree a.regions a.tail
    · by_cases h3 :
          bytes > regionFree a.regions (walkTail a.regions bytes a.tail)
      · cases mem with
        | none =>
            rw [arena_alloc_grow_none a bytes hne h2 h3]
            obtain ⟨_, hlt, _, _⟩ := walkTail_spec a.regions bytes a.tail ht
            exact ⟨Or.inl hlt, hwf.2⟩
        | some fresh =>
            rw [arena_alloc_grow_some a bytes fresh hne h2 h3]
            obtain ⟨htake, hsucc⟩ := grow_take_eq a bytes ht h3
            constructor
            · left; simp [htake, hsucc]
            · intro r hr
              simp only [htake] at hr
              rcases List.mem_append.1 hr with h | h
              · exact hwf.2 r h
              · simp at h
                subst h
                simpa using bytes_le_newRegionSize a bytes
      · rw [arena_alloc_bump_walk a bytes mem hne h2 (Nat.not_lt.1 h3)]
        obtain ⟨_, hlt, _, _⟩ := walkTail_spec a.regions bytes a.tail ht
        exact wf_bumpAt a (walkTail a.regions bytes a.tail) bytes hwf hlt
          (Nat.not_lt.1 h3)
    · rw [arena_alloc_bump_tail a bytes mem hne (Nat.not_lt.1 h2)]
      exact wf_bumpAt a a.tail bytes hwf ht (Nat.not_lt.1 h2)

theorem reachable_wf (a : Arena) (h : Reachable a) : ArenaWF a := by
  induction h with
  | create c => exact wf_create c
  | alloc bytes mem _ ih => exact wf_alloc _ bytes mem ih
  | reset _ _ => exact wf_reset _
  | free _ _ => exact wf_free _

/-! ## Frame lemmas -/

theorem bumpAt_frame (a : Arena) (t bytes : Nat)
    (ht : t < a.regions.length) :
    (bumpAt a t bytes).2.region_capacity = a.region_capacity ∧
    (bumpAt a t bytes).2.regions.length = a.regions.length ∧
    (bumpAt a t bytes).2.tail = t ∧
    (∀ i, i < a.regions.length → i ≠ t →
      (bumpAt a t bytes).2.regions.getD i default =
        a.regions.getD i default) ∧
    (bumpAt a t bytes).2.regions.getD t default =
      ⟨(a.regions.getD t default).count + bytes,
       (a.regions.getD t default).capacity,
       (a.regions.getD t default).data⟩ := by
  refine ⟨rfl, by simp [bumpAt], rfl, ?_, ?_⟩
  · intro i hi hne
    simp only [bumpAt]
    exact getD_set_of_ne a.regions t i _ default (fun h => hne h.symm)
  · simp only [bumpAt, regionAt]
    exact getD_set_self a.regions t _ default ht

theorem cap_stable_bumpAt (a : Arena) (t bytes i : Nat)
    (hi : i < a.regions.length) :
    ((bumpAt a t bytes).2.regions.getD i default).capacity =
      (a.regions.getD i default).capacity := by
  by_cases hit : i = t
  · subst hit
    by_cases hlt : i < a.regions.length
    · simp only [bumpAt, regionAt]
      rw [getD_set_self a.regions i _ default hlt]
    · omega
  · simp only [bumpAt]
    rw [getD_set_of_ne a.regions t i _ default (fun h => hit h.symm)]

/-- arena_alloc never changes the capacity of a region already in the
chain, whichever path it takes and whether or not the underlying
allocation succeeds. -/
theorem cap_stable_alloc (a : Arena) (bytes : Nat)
    (mem : Option (List Nat)) (i : Nat) (hwf : ArenaWF a)
    (hi : i < a.regions.length) :
    ((arena_alloc a bytes mem).2.regions.getD i default).capacity =
      (a.regions.getD i default).capacity := by
  by_cases hne : a.regions = []
  · rw [hne] at hi; simp at hi
  · have ht : a.tail < a.regions.length := by
      rcases hwf.1 with h | ⟨h, _⟩
      · exact h
      · exact absurd h hne
    by_cases h2 : bytes > regionFree a.regions a.tail
    · by_cases h3 :
          bytes > regionFree a.regions (walkTail a.regions bytes a.tail)
      · cases mem with
        | none => rw [arena_alloc_grow_none a bytes hne h2 h3]
        | some fresh =>
            rw [arena_alloc_grow_some a bytes fresh hne h2 h3]
            obtain ⟨htake, _⟩ := grow_take_eq a bytes ht h3
            simp only [htake]
            rw [getD_append_left a.regions _ i default hi]
      · rw [arena_alloc_bump_walk a bytes mem hne h2 (Nat.not_lt.1 h3)]
        exact cap_stable_bumpAt a _ bytes i hi
    · rw [arena_alloc_bump_tail a bytes mem hne (Nat.not_lt.1 h2)]
      exact cap_stable_bumpAt a a.tail bytes i hi

/-- arena_reset never changes the capacity of a region of the chain. -/
theorem cap_stable_reset (a : Arena) (i : Nat)
    (hi : i < a.regions.length) :
    ((arena_reset a).regions.getD i default).capacity =
      (a.regions.getD i default).capacity := by
  simp only [arena_reset]
  rw [getD_map_of_lt a.regions _ i default hi]

/-! ## Claims -/

/-- C1: the specification says a successful in-place allocation returns the
handle at the offset equal to count BEFORE the increment (in particular,
immediately after arena_reset an allocation of at most the head capacity
returns offset 0 of head).  The source (arena.h lines 193-194) increments
count first and then returns data + count, the offset AFTER the increment:
resetting a one-region arena of capacity 400 and allocating 100 bytes
returns the pointer at offset 100, not 0. -/
theorem arena_alloc_after_reset_returns_postbump_offset :
    arena_alloc (arena_reset ⟨[⟨400, 400, []⟩], 0, 400⟩) 100 none =
      (some (0, 100), ⟨[⟨100, 400, []⟩], 0, 400⟩) ∧
    (some (0, 100) : Ptr) ≠ (some (0, 0) : Ptr) := by decide

/-- C2, counterexample: when the underlying allocation for a new region
fails, the arena is NOT always left exactly in its prior state, because the
search loop (arena.h lines 174-176) has already advanced the tail cursor
before the failing ARENA_REALLOC call: on an arena of two 400-byte regions
with tail at head, a failing allocation of 500 bytes returns NULL with the
tail cursor moved from 0 to 1. -/
theorem arena_alloc_fail_moves_tail_cursor :
    (arena_alloc ⟨[⟨0, 400, []⟩, ⟨0, 400, []⟩], 0, 400⟩ 500 none).1 =
      (none : Ptr) ∧
    (arena_alloc ⟨[⟨0, 400, []⟩, ⟨0, 400, []⟩], 0, 400⟩ 500 none).2.tail
      = 1 ∧
    (⟨[⟨0, 400, []⟩, ⟨0, 400, []⟩], 0, 400⟩ : Arena).tail = 0 := by decide

/-- C2, amended: when arena_alloc returns the failure result after the
underlying allocator fails, no region of the chain is mutated or linked in
(the chain, hence head and every count, capacity and next link, is exactly
the one before the call) and the configured region_capacity is unchanged;
the tail cursor, however, may have advanced forward along existing next
links, and stays inside the chain when it started inside it. -/
theorem arena_alloc_fail_frame (a : Arena) (bytes : Nat)
    (h : (arena_alloc a bytes none).1 = none) :
    (arena_alloc a bytes none).2.regions = a.regions ∧
    (arena_alloc a bytes none).2.region_capacity = a.region_capacity ∧
    a.tail ≤ (arena_alloc a bytes none).2.tail ∧
    (a.tail < a.regions.length →
      (arena_alloc a bytes none).2.tail < a.regions.length) := by
  by_cases hne : a.regions = []
  · rw [arena_alloc_empty_none a bytes hne]
    exact ⟨rfl, rfl, Nat.le_refl _, fun h => h⟩
  · by_cases h2 : bytes > regionFree a.regions a.tail
    · by_cases h3 :
          bytes > regionFree a.regions (walkTail a.regions bytes a.tail)
      · rw [arena_alloc_grow_none a bytes hne h2 h3]
        refine ⟨rfl, rfl, walkTail_ge a.regions bytes a.tail, ?_⟩
        intro ht
        exact (walkTail_spec a.regions bytes a.tail ht).2.1
      · rw [arena_alloc_bump_walk a bytes none hne h2 (Nat.not_lt.1 h3)]
          at h
        simp [bumpAt] at h
    · rw [arena_alloc_bump_tail a bytes none hne (Nat.not_lt.1 h2)] at h
      simp [bumpAt] at h

/-- Witness for the amended C2 at the concrete failing input of the
counterexample: two full-for-this-request regions, request 500, failing
allocator. -/
theorem arena_alloc_fail_frame_witness :
    (arena_alloc ⟨[⟨0, 400, []⟩, ⟨0, 400, []⟩], 0, 400⟩ 500 none).2.regions
        = (⟨[⟨0, 400, []⟩, ⟨0, 400, []⟩], 0, 400⟩ : Arena).regions ∧
    (arena_alloc ⟨[⟨0, 400, []⟩, ⟨0, 400, []⟩], 0, 400⟩ 500
        none).2.region_capacity
      = (⟨[⟨0, 400, []⟩, ⟨0, 400, []⟩], 0, 400⟩ : Arena).region_capacity ∧
    (⟨[⟨0, 400, []⟩, ⟨0, 400, []⟩], 0, 400⟩ : Arena).tail ≤
      (arena_alloc ⟨[⟨0, 400, []⟩, ⟨0, 400, []⟩], 0, 400⟩ 500 none).2.tail ∧
    ((⟨[⟨0, 400, []⟩, ⟨0, 400, []⟩], 0, 400⟩ : Arena).tail <
        (⟨[⟨0, 400, []⟩, ⟨0, 400, []⟩], 0, 400⟩ : Arena).regions.length →
      (arena_alloc ⟨[⟨0, 400, []⟩, ⟨0, 400, []⟩], 0, 400⟩ 500 none).2.tail <
        (⟨[⟨0, 400, []⟩, ⟨0, 400, []⟩], 0, 400⟩ : Arena).regions.length) :=
  arena_alloc_fail_frame ⟨[⟨0, 400, []⟩, ⟨0, 400, []⟩], 0, 400⟩ 500
    (by decide)

/-- C3: on every arena reachable by the operations of the library, every
region of the chain satisfies count <= capacity, and neither arena_alloc
(on any path, with any allocator outcome) nor arena_reset changes the
capacity of a region already in the chain. -/
theorem reachable_inv_and_capacity_stable (a : Arena) (h : Reachable a) :
    (∀ r ∈ a.regions, r.count ≤ r.capacity) ∧
    (∀ bytes mem i, i < a.regions.length →
      ((arena_alloc a bytes mem).2.regions.getD i default).capacity =
        (a.regions.getD i default).capacity) ∧
    (∀ i, i < a.regions.length →
      ((arena_reset a).regions.getD i default).capacity =
        (a.regions.getD i default).capacity) := by
  have hwf := reachable_wf a h
  exact ⟨hwf.2,
    fun bytes mem i hi => cap_stable_alloc a bytes mem i hwf hi,
    fun i hi => cap_stable_reset a i hi⟩

/-- Witness for C3 at a concrete reachable arena: arena_create 400
followed by a successful allocation of 100 bytes. -/
theorem reachable_inv_and_capacity_stable_witness :
    (∀ r ∈ (arena_alloc (arena_create 400) 100 (some [])).2.regions,
      r.count ≤ r.capacity) ∧
    (∀ bytes mem i,
      i < (arena_alloc (arena_create 400) 100 (some [])).2.regions.length →
      ((arena_alloc (arena_alloc (arena_create 400) 100 (some [])).2 bytes
          mem).2.regions.getD i default).capacity =
        ((arena_alloc (arena_create 400) 100
            (some [])).2.regions.getD i default).capacity) ∧
    (∀ i,
      i < (arena_alloc (arena_create 400) 100 (some [])).2.regions.length →
      ((arena_reset
          (arena_alloc (arena_create 400) 100
            (some [])).2).regions.getD i default).capacity =
        ((arena_alloc (arena_create 400) 100
            (some [])).2.regions.getD i default).capacity) :=
  reachable_inv_and_capacity_stable
    (arena_alloc (arena_create 400) 100 (some [])).2
    (Reachable.alloc 100 (some []) (Reachable.create 400))

/-- C4: arena_reset sets the count of every region of the chain to 0 and
moves the tail cursor back to head, leaving every capacity, every data
buffer, the chain structure (the next links) and the configured
region_capacity unchanged; it performs no deallocation (the model is a
pure state map with no deallocation trace, like the source, which calls no
deallocator), and on the empty arena it is a no-op. -/
theorem arena_reset_spec (a : Arena) (c : Nat) :
    (arena_reset a).regions =
      a.regions.map (fun r => ⟨0, r.capacity, r.data⟩) ∧
    (arena_reset a).tail = 0 ∧
    (arena_reset a).region_capacity = a.region_capacity ∧
    arena_reset ⟨[], 0, c⟩ = (⟨[], 0, c⟩ : Arena) :=
  ⟨rfl, rfl, rfl, rfl⟩

/-- C5, counterexample: the second half of the claim fails when the
configured region_capacity is zero: on an arena created with
region_capacity 0 whose single region (of the effective default capacity
8192) is full, a request of 5 bytes has bytes > region_capacity = 0, yet
the newly created region has capacity 8192 (the effective default), not
exactly 5. -/
theorem arena_alloc_grow_rounds_up_to_default :
    (5 : Nat) > (⟨[⟨8192, 8192, []⟩], 0, 0⟩ : Arena).region_capacity ∧
    (arena_alloc ⟨[⟨8192, 8192, []⟩], 0, 0⟩ 5 (some [])).2.regions =
      [⟨8192, 8192, []⟩, ⟨5, 8192, []⟩] ∧
    (8192 : Nat) ≠ 5 := by decide

/-- C5, amended: whenever arena_alloc exhausts the chain without finding a
region with enough free space and the underlying allocation succeeds, the
newly created region has capacity exactly max(bytes, effCap a), where
effCap is the configured region_capacity or, when that is zero, the
library default; in particular for bytes > effCap a the capacity is
exactly bytes. -/
theorem arena_alloc_exhausted_grow_spec (a : Arena) (bytes : Nat)
    (fresh : List Nat) (h1 : a.tail < a.regions.length)
    (h2 : ∀ j, a.tail ≤ j → j < a.regions.length →
      bytes > regionFree a.regions j) :
    arena_alloc a bytes (some fresh) =
      (some (a.regions.length, 0),
       ⟨a.regions ++ [⟨bytes, Nat.max bytes (effCap a), fresh⟩],
        a.regions.length, a.region_capacity⟩) ∧
    (bytes > effCap a → Nat.max bytes (effCap a) = bytes) := by
  have hne : a.regions ≠ [] := by
    intro hh; rw [hh] at h1; simp at h1
  have hft : bytes > regionFree a.regions a.tail :=
    h2 a.tail (Nat.le_refl _) h1
  obtain ⟨hge, hlt, _, _⟩ := walkTail_spec a.regions bytes a.tail h1
  have h3 : bytes > regionFree a.regions (walkTail a.regions bytes a.tail) :=
    h2 _ hge hlt
  rw [arena_alloc_grow_some a bytes fresh hne hft h3]
  obtain ⟨htake, hsucc⟩ := grow_take_eq a bytes h1 h3
  rw [htake, hsucc, newRegionSize_eq_max]
  exact ⟨rfl, fun hb => Nat.max_eq_left (Nat.le_of_lt hb)⟩

/-- Witness for the amended C5: a full 400-byte region with configured
region_capacity 400 and a request of 500 bytes creates a region of
capacity max(500, 400) = 500. -/
theorem arena_alloc_exhausted_grow_spec_witness :
    arena_alloc ⟨[⟨400, 400, []⟩], 0, 400⟩ 500 (some []) =
      (some ((⟨[⟨400, 400, []⟩], 0, 400⟩ : Arena).regions.length, 0),
       ⟨(⟨[⟨400, 400, []⟩], 0, 400⟩ : Arena).regions ++
          [⟨500, Nat.max 500 (effCap ⟨[⟨400, 400, []⟩], 0, 400⟩), []⟩],
        (⟨[⟨400, 400, []⟩], 0, 400⟩ : Arena).regions.length,
        (⟨[⟨400, 400, []⟩], 0, 400⟩ : Arena).region_capacity⟩) ∧
    (500 > effCap ⟨[⟨400, 400, []⟩], 0, 400⟩ →
      Nat.max 500 (effCap ⟨[⟨400, 400, []⟩], 0, 400⟩) = 500) :=
  arena_alloc_exhausted_grow_spec ⟨[⟨400, 400, []⟩], 0, 400⟩ 500 []
    (by decide)
    (fun j _ hj => by
      simp [Nat.lt_one_iff] at hj
      subst hj
      decide)

/-- C6: arena_free releases every region of the chain (the deallocation
trace contains exactly the regions of the chain, in order) and clears the
arena to the empty state with head and tail cleared, while the configured
region_capacity is left unchanged, so the arena is immediately reusable
with the same configuration. -/
theorem arena_free_spec (a : Arena) :
    (arena_free a).1 = (⟨[], 0, a.region_capacity⟩ : Arena) ∧
    (arena_free a).2.map Prod.snd = a.regions := by
  refine ⟨rfl, ?_⟩
  simp [arena_free]

/-- C7: freeing an arena and then allocating behaves exactly like
allocating on a freshly constructed empty arena with the same configured
region_capacity, for every request size and allocator outcome (both the
returned pointer and the resulting arena state coincide). -/
theorem arena_free_then_alloc_eq_fresh_alloc (a : Arena) (bytes : Nat)
    (mem : Option (List Nat)) :
    arena_alloc (arena_free a).1 bytes mem =
      arena_alloc (arena_create a.region_capacity) bytes mem := rfl

/-- C8: on an empty arena (no regions; the tail field is irrelevant and
arbitrary), a successful arena_alloc creates one region of capacity
max(bytes, effective default), where the effective default is the library
constant ARENA_REGION_CAPACITY when the configured capacity is zero and
the configured value otherwise, makes it both head and tail (the single
region at index 0 is both), sets its count to bytes, and returns the
handle at offset 0 of its buffer. -/
theorem arena_alloc_empty_spec (rc t bytes : Nat) (fresh : List Nat) :
    arena_alloc ⟨[], t, rc⟩ bytes (some fresh) =
      (some (0, 0),
       ⟨[⟨bytes,
          Nat.max bytes (if rc = 0 then ARENA_REGION_CAPACITY else rc),
          fresh⟩],
        0, rc⟩) := by
  rw [arena_alloc_empty_some ⟨[], t, rc⟩ bytes fresh rfl,
    newRegionSize_eq_max]
  rfl

/-- C9: the claim says every memory release performed by arena_free goes
through the configured ARENA_FREE hook.  The source contradicts its own
documentation here (arena.h lines 22-27 and 100-103 document ARENA_FREE as
the deallocation override used for managing regions): line 206 calls the C
standard library function free directly, so on an arena with one region
the deallocation trace names libc free and not the hook.  (The acquisition
side of the claim does hold: both allocation sites, lines 160 and 181, go
through ARENA_REALLOC, which the model makes the mem parameter.) -/
theorem arena_free_bypasses_arena_free_hook :
    (arena_free ⟨[⟨100, 400, []⟩], 0, 400⟩).2 =
      [(FreeFn.libcFree, ⟨100, 400, []⟩)] ∧
    FreeFn.libcFree ≠ FreeFn.arenaFreeHook := by decide

/-- C10: whenever arena_alloc satisfies a request from an already existing
region (some region at or after the tail cursor has enough free space, so
no new region is created and the allocator outcome is irrelevant), the
only state changes are that the tail cursor may advance forward along next
links (staying inside the chain) and the count of the final tail region
increases by bytes: the configured region_capacity, the chain length, and
every region other than the final tail (hence head, every capacity, every
data buffer and every next link) are unchanged, and the final tail region
keeps its capacity and data. -/
theorem arena_alloc_existing_region_frame (a : Arena) (bytes : Nat)
    (mem : Option (List Nat)) (h1 : a.tail < a.regions.length)
    (h2 : ∃ j, a.tail ≤ j ∧ j < a.regions.length ∧
      bytes ≤ regionFree a.regions j) :
    (arena_alloc a bytes mem).2.region_capacity = a.region_capacity ∧
    (arena_alloc a bytes mem).2.regions.length = a.regions.length ∧
    a.tail ≤ (arena_alloc a bytes mem).2.tail ∧
    (arena_alloc a bytes mem).2.tail < a.regions.length ∧
    (∀ i, i < a.regions.length → i ≠ (arena_alloc a bytes mem).2.tail →
      (arena_alloc a bytes mem).2.regions.getD i default =
        a.regions.getD i default) ∧
    (arena_alloc a bytes mem).2.regions.getD
        (arena_alloc a bytes mem).2.tail default =
      ⟨(a.regions.getD
          (arena_alloc a bytes mem).2.tail default).count + bytes,
       (a.regions.getD
          (arena_alloc a bytes mem).2.tail default).capacity,
       (a.regions.getD
          (arena_alloc a bytes mem).2.tail default).data⟩ := by
  have hne : a.regions ≠ [] := by
    intro hh; rw [hh] at h1; simp at h1
  by_cases hfree : bytes ≤ regionFree a.regions a.tail
  · rw [arena_alloc_bump_tail a bytes mem hne hfree]
    obtain ⟨f1, f2, f3, f4, f5⟩ := bumpAt_frame a a.tail bytes h1
    rw [f3]
    exact ⟨f1, f2, Nat.le_refl _, h1, f4, f5⟩
  · have hft : bytes > regionFree a.regions a.tail := Nat.not_le.1 hfree
    obtain ⟨hge, hlt, hstop, hskip⟩ :=
      walkTail_spec a.regions bytes a.tail h1
    by_cases h3 :
        bytes ≤ regionFree a.regions (walkTail a.regions bytes a.tail)
    · rw [arena_alloc_bump_walk a bytes mem hne hft h3]
      obtain ⟨f1, f2, f3, f4, f5⟩ :=
        bumpAt_frame a (walkTail a.regions bytes a.tail) bytes hlt
      rw [f3]
      exact ⟨f1, f2, hge, hlt, f4, f5⟩
    · exfalso
      obtain ⟨j, hj1, hj2, hj3⟩ := h2
      have hw : walkTail a.regions bytes a.tail = a.regions.length - 1 := by
        rcases hstop with hsp | hl
        · omega
        · exact hl
      rcases Nat.lt_or_ge j (walkTail a.regions bytes a.tail) with hjw | hjw
      · exact absurd hj3 (Nat.not_le.2 (hskip j hj1 hjw))
      · have : j = walkTail a.regions bytes a.tail := by omega
        subst this
        omega

/-- Witness for C10: a single region with 100 of 400 bytes used, request
of 50 bytes, failing allocator outcome (which this path never consults). -/
theorem arena_alloc_existing_region_frame_witness :
    (arena_alloc ⟨[⟨100, 400, []⟩], 0, 400⟩ 50 none).2.region_capacity =
        (⟨[⟨100, 400, []⟩], 0, 400⟩ : Arena).region_capacity ∧
    (arena_alloc ⟨[⟨100, 400, []⟩], 0, 400⟩ 50 none).2.regions.length =
        (⟨[⟨100, 400, []⟩], 0, 400⟩ : Arena).regions.length ∧
    (⟨[⟨100, 400, []⟩], 0, 400⟩ : Arena).tail ≤
        (arena_alloc ⟨[⟨100, 400, []⟩], 0, 400⟩ 50 none).2.tail ∧
    (arena_alloc ⟨[⟨100, 400, []⟩], 0, 400⟩ 50 none).2.tail <
        (⟨[⟨100, 400, []⟩], 0, 400⟩ : Arena).regions.length ∧
    (∀ i, i < (⟨[⟨100, 400, []⟩], 0, 400⟩ : Arena).regions.length →
      i ≠ (arena_alloc ⟨[⟨100, 400, []⟩], 0, 400⟩ 50 none).2.tail →
      (arena_alloc ⟨[⟨100, 400, []⟩], 0, 400⟩ 50
          none).2.regions.getD i default =
        (⟨[⟨100, 400, []⟩], 0, 400⟩ : Arena).regions.getD i default) ∧
    (arena_alloc ⟨[⟨100, 400, []⟩], 0, 400⟩ 50 none).2.regions.getD
        (arena_alloc ⟨[⟨100, 400, []⟩], 0, 400⟩ 50 none).2.tail default =
      ⟨((⟨[⟨100, 400, []⟩], 0, 400⟩ : Arena).regions.getD
          (arena_alloc ⟨[⟨100, 400, []⟩], 0, 400⟩ 50
            none).2.tail default).count + 50,
       ((⟨[⟨100, 400, []⟩], 0, 400⟩ : Arena).regions.getD
          (arena_alloc ⟨[⟨100, 400, []⟩], 0, 400⟩ 50
            none).2.tail default).capacity,
       ((⟨[⟨100, 400, []⟩], 0, 400⟩ : Arena).regions.getD
          (arena_alloc ⟨[⟨100, 400, []⟩], 0, 400⟩ 50
            none).2.tail default).data⟩ :=
  arena_alloc_existing_region_frame ⟨[⟨100, 400, []⟩], 0, 400⟩ 50 none
    (by decide) ⟨0, Nat.le_refl 0, by decide, by decide⟩
